import Mathlib

/-!
Verification of the sprint-report generation pipeline: a shallow embedding of
`jira_client.py` (search pagination, issue normalization, grouping) and
`generate_api_report.py` (reconciliation, epic status, epic summaries, report
entries), with theorems settling the specification's claims.
-/

set_option maxRecDepth 8000

/-! ## JSON-like raw values and Python dictionary semantics -/

/-- JSON-like values modelling the raw records returned by the Jira REST API. -/
inductive JVal where
  | null : JVal
  | bool : Bool → JVal
  | num : Int → JVal
  | str : String → JVal
  | arr : List JVal → JVal
  | obj : List (String × JVal) → JVal

/-- Python runtime error raised by attribute access on a value lacking it
(`AttributeError`, e.g. calling `.get` on `None` or on a list). -/
inductive PyErr where
  | attributeError : PyErr
deriving DecidableEq

/-- Lookup of a key in a Python-dict model (association list, first match). -/
def alookup {α : Type} : List (String × α) → String → Option α
  | [], _ => none
  | (k', v) :: t, k => if k' = k then some v else alookup t k

/-- Value of key `k` in dict `fs`, or default `d` when absent: `fs.get(k, d)`
once `fs` is known to be a dict.  Note that a key present with value `null`
yields `null`, not the default, exactly as Python's `dict.get`. -/
def lookupD {α : Type} (fs : List (String × α)) (k : String) (d : α) : α :=
  match alookup fs k with
  | some v => v
  | none => d

/-- Python `v.get(k, d)`: succeeds only when `v` is a dict; on any other
value (`None`, string, list, number, bool) attribute access raises. -/
def pyGet (v : JVal) (k : String) (d : JVal) : Except PyErr JVal :=
  match v with
  | .obj fs => .ok (lookupD fs k d)
  | _ => .error .attributeError

/-- Python truthiness of a JSON value. -/
def JVal.truthy : JVal → Bool
  | .null => false
  | .bool b => b
  | .num n => n != 0
  | .str s => s != ""
  | .arr xs => !xs.isEmpty
  | .obj fs => !fs.isEmpty

/-- Whether the value is a string. -/
def JVal.isStr : JVal → Bool
  | .str _ => true
  | _ => false

/-- Whether the value is a list (`isinstance(v, list)`). -/
def JVal.isArr : JVal → Bool
  | .arr _ => true
  | _ => false

/-- Python `v == "Epic"`-style comparison of a JSON value with a string
literal: true exactly when `v` is that string. -/
def JVal.beqStr : JVal → String → Bool
  | .str s, t => s == t
  | _, _ => false

/-! ## parse_issue over raw records (jira_client.py lines 106-149) -/

/-- The normalized record returned by `parse_issue`: the Python dict literal
of lines 129-149, with one field per key, each holding the JSON value the
corresponding expression produced. -/
structure RawParsed where
  key : JVal
  summary : JVal
  description : JVal
  status : JVal
  status_category : JVal
  issuetype : JVal
  epic_link : JVal
  epic_name : JVal
  parent_key : JVal
  parent_summary : JVal
  assignee : JVal
  created : JVal
  updated : JVal
  sprint : JVal

/-- Lines 112-114: `if parent and parent.get("fields", {}).get("issuetype",
{}).get("name") == "Epic": epic_link = parent.get("key", "")`, with
`epic_link` previously initialized to `""`. -/
def epicLink0Expr (parent : JVal) : Except PyErr JVal :=
  if parent.truthy then do
    let pf ← pyGet parent "fields" (.obj [])
    let pit ← pyGet pf "issuetype" (.obj [])
    let pname ← pyGet pit "name" .null
    if pname.beqStr "Epic" then pyGet parent "key" (.str "")
    else pure (JVal.str "")
  else pure (JVal.str "")

/-- Lines 117-118: `if not epic_link: epic_link = fields.get(
"customfield_10014", "")`. -/
def epicLinkExpr (fields epicLink0 : JVal) : Except PyErr JVal :=
  if epicLink0.truthy then pure epicLink0
  else pyGet fields "customfield_10014" (.str "")

/-- Lines 125-127: the sprint name is the `name` of the first element of the
list-valued sprint field, behind the truthiness, `isinstance(..., list)`
and `len > 0` guards. -/
def sprintExpr (sprint_field : JVal) : Except PyErr JVal :=
  if sprint_field.truthy && sprint_field.isArr then
    match sprint_field with
    | .arr (x :: _) => pyGet x "name" (.str "")
    | _ => pure (JVal.str "")
  else pure (JVal.str "")

/-- Line 142: `parent.get("key", "") if parent else ""`. -/
def parentKeyExpr (parent : JVal) : Except PyErr JVal :=
  if parent.truthy then pyGet parent "key" (.str "")
  else pure (JVal.str "")

/-- Line 143: `parent.get("fields", {}).get("summary", "") if parent else ""`. -/
def parentSummaryExpr (parent : JVal) : Except PyErr JVal :=
  if parent.truthy then do
    let pf2 ← pyGet parent "fields" (.obj [])
    pyGet pf2 "summary" (.str "")
  else pure (JVal.str "")

/-- Line 145: `fields.get("assignee", {}).get("displayName", "") if
fields.get("assignee") else ""` (the condition value is passed in). -/
def assigneeExpr (fields assigneeCond : JVal) : Except PyErr JVal :=
  if assigneeCond.truthy then do
    let a ← pyGet fields "assignee" (.obj [])
    pyGet a "displayName" (.str "")
  else pure (JVal.str "")

/-- Shallow embedding of `JiraClient.parse_issue`.  Each step mirrors one
source expression, in source evaluation order; Python exceptions are the
`Except` error channel. -/
def parse_issue (issue : JVal) : Except PyErr RawParsed := do
  let fields ← pyGet issue "fields" (.obj [])
  let parent ← pyGet fields "parent" (.obj [])
  let epicLink0 ← epicLink0Expr parent
  let epic_link ← epicLinkExpr fields epicLink0
  let epic_name ← pyGet fields "customfield_10011" (.str "")
  let sprint_field ← pyGet fields "customfield_10020" (.arr [])
  let sprint_name ← sprintExpr sprint_field
  -- the result dict literal, values evaluated in source order
  let key ← pyGet issue "key" (.str "")
  let summary ← pyGet fields "summary" (.str "")
  let description ← pyGet fields "description" (.str "")
  let st1 ← pyGet fields "status" (.obj [])
  let status ← pyGet st1 "name" (.str "")
  let st2 ← pyGet fields "status" (.obj [])
  let stc ← pyGet st2 "statusCategory" (.obj [])
  let status_category ← pyGet stc "name" (.str "")
  let it ← pyGet fields "issuetype" (.obj [])
  let issuetype ← pyGet it "name" (.str "")
  let parent_key ← parentKeyExpr parent
  let parent_summary ← parentSummaryExpr parent
  let assigneeCond ← pyGet fields "assignee" .null
  let assignee ← assigneeExpr fields assigneeCond
  let created ← pyGet fields "created" (.str "")
  let updated ← pyGet fields "updated" (.str "")
  pure { key := key, summary := summary, description := description,
         status := status, status_category := status_category,
         issuetype := issuetype, epic_link := epic_link,
         epic_name := epic_name, parent_key := parent_key,
         parent_summary := parent_summary, assignee := assignee,
         created := created, updated := updated, sprint := sprint_name }

/-! ### A sufficient shape discipline under which parse_issue is total -/

/-- Key `k`, when present in `fs`, holds a string. -/
def strOrAbsent (fs : List (String × JVal)) (k : String) : Bool :=
  match alookup fs k with
  | none => true
  | some (.str _) => true
  | some _ => false

/-- Key `k`, when present in `fs`, is an object. -/
def objOrAbsent (fs : List (String × JVal)) (k : String) : Bool :=
  match alookup fs k with
  | none => true
  | some (.obj _) => true
  | some _ => false

/-- Key `k`, when present, is an object whose `name`, when present, is a
string (shape needed by `fields.get(k, {}).get("name", "")`). -/
def objNameOK (fs : List (String × JVal)) (k : String) : Bool :=
  match alookup fs k with
  | none => true
  | some (.obj ifs) => strOrAbsent ifs "name"
  | some _ => false

/-- The `statusCategory` of a status object, when present, is an object
whose `name` is string-or-absent. -/
def statusCategoryOK (sfs : List (String × JVal)) : Bool :=
  match alookup sfs "statusCategory" with
  | none => true
  | some (.obj cfs) => strOrAbsent cfs "name"
  | some _ => false

/-- Shape needed by the two `status` accesses: when present, `status` is an
object with string-or-absent `name` and a well-shaped `statusCategory`. -/
def statusShapeOK (fs : List (String × JVal)) : Bool :=
  match alookup fs "status" with
  | none => true
  | some (.obj sfs) => strOrAbsent sfs "name" && statusCategoryOK sfs
  | some _ => false

/-- The `fields` of a parent object, when present, is an object whose
`summary` is string-or-absent and whose `issuetype` is object-or-absent. -/
def parentFieldsOK (pfs : List (String × JVal)) : Bool :=
  match alookup pfs "fields" with
  | none => true
  | some (.obj pff) => strOrAbsent pff "summary" && objOrAbsent pff "issuetype"
  | some _ => false

/-- Shape needed by the `parent` accesses: absent, null, or an object with
string-or-absent `key` and well-shaped `fields`. -/
def parentShapeOK (fs : List (String × JVal)) : Bool :=
  match alookup fs "parent" with
  | none => true
  | some .null => true
  | some (.obj pfs) => strOrAbsent pfs "key" && parentFieldsOK pfs
  | some _ => false

/-- Shape needed by the `assignee` accesses: absent, null, or an object with
string-or-absent `displayName`. -/
def assigneeShapeOK (fs : List (String × JVal)) : Bool :=
  match alookup fs "assignee" with
  | none => true
  | some .null => true
  | some (.obj afs) => strOrAbsent afs "displayName"
  | some _ => false

/-- Shape needed by the sprint extraction: `customfield_10020` absent, a
non-list (rejected by the `isinstance` guard), the empty list, or a list
whose first element is an object with string-or-absent `name`. -/
def sprintShapeOK (fs : List (String × JVal)) : Bool :=
  match alookup fs "customfield_10020" with
  | some (.arr (x :: _)) =>
    (match x with
     | .obj xfs => strOrAbsent xfs "name"
     | _ => false)
  | _ => true

/-- Shape discipline for the `fields` sub-object. -/
def fieldsOK (fs : List (String × JVal)) : Bool :=
  strOrAbsent fs "summary" && strOrAbsent fs "description" &&
  statusShapeOK fs && objNameOK fs "issuetype" && parentShapeOK fs &&
  strOrAbsent fs "customfield_10014" && strOrAbsent fs "customfield_10011" &&
  sprintShapeOK fs && assigneeShapeOK fs &&
  strOrAbsent fs "created" && strOrAbsent fs "updated"

/-- Shape discipline on a whole raw record under which `parse_issue` is total
and produces only string fields: the record is an object, its `key` is
string-or-absent, and its `fields`, when present, is an object obeying
`fieldsOK`. -/
def wellTyped (raw : JVal) : Bool :=
  match raw with
  | .obj rfs =>
    strOrAbsent rfs "key" &&
    (match alookup rfs "fields" with
     | none => true
     | some (.obj fs) => fieldsOK fs
     | some _ => false)
  | _ => false

/-- Every field of the normalized record is a string. -/
def strFields (p : RawParsed) : Bool :=
  p.key.isStr && p.summary.isStr && p.description.isStr && p.status.isStr &&
  p.status_category.isStr && p.issuetype.isStr && p.epic_link.isStr &&
  p.epic_name.isStr && p.parent_key.isStr && p.parent_summary.isStr &&
  p.assignee.isStr && p.created.isStr && p.updated.isStr && p.sprint.isStr

/-! ## Normalized issues and grouping (jira_client.py lines 151-188) -/

/-- Normalized issue record as consumed by the grouping and reporting code
(the string-valued fields of the `parse_issue` output that this code reads). -/
structure Issue where
  key : String
  summary : String
  status : String
  status_category : String
  issuetype : String
  epic_link : String
  epic_name : String
  sprint : String
deriving DecidableEq, Repr

/-- One epic and the issues grouped beneath it (the dict built in
`group_issues_by_parent`, which has exactly the keys `epic_key`,
`epic_name` and `children`). -/
structure EpicGroup where
  epic_key : String
  epic_name : String
  children : List Issue
deriving DecidableEq, Repr

/-- Output of `group_issues_by_parent`: insertion-ordered dict of epic
groups plus the standalone list. -/
structure Grouped where
  epics : List (String × EpicGroup)
  standalone : List Issue
deriving DecidableEq, Repr

/-- Whether the dict has key `k`. -/
def hasKey {α : Type} : List (String × α) → String → Bool
  | [], _ => false
  | (k', _) :: t, k => k' == k || hasKey t k

/-- Python dict assignment `d[k] = v`: replaces the value in place when the
key exists, otherwise appends at the end (insertion order). -/
def dictInsert {α : Type} : List (String × α) → String → α → List (String × α)
  | [], k, v => [(k, v)]
  | (k', v') :: t, k, v =>
    if k' = k then (k, v) :: t else (k', v') :: dictInsert t k v

/-- `epics[k]["children"].append(i)`: appends `i` to the children of the
group stored at key `k` (no effect when the key is absent). -/
def appendChild : List (String × EpicGroup) → String → Issue → List (String × EpicGroup)
  | [], _, _ => []
  | (k', g) :: t, k, i =>
    if k' = k then (k', { g with children := g.children ++ [i] }) :: t
    else (k', g) :: appendChild t k i

/-- One iteration of the loop in `group_issues_by_parent`. -/
def groupStep (st : Grouped) (issue : Issue) : Grouped :=
  if issue.issuetype = "Epic" then
    -- register (or overwrite) the epic's group, with empty children;
    -- its name is `issue["epic_name"] or issue["summary"]`
    let g : EpicGroup :=
      ⟨issue.key, if issue.epic_name ≠ "" then issue.epic_name else issue.summary, []⟩
    { st with epics := dictInsert st.epics issue.key g }
  else if issue.epic_link ≠ "" then
    -- ensure a (placeholder-named) group exists, then append as child
    let epics1 :=
      if hasKey st.epics issue.epic_link then st.epics
      else st.epics ++ [(issue.epic_link, ⟨issue.epic_link, "", []⟩)]
    { st with epics := appendChild epics1 issue.epic_link issue }
  else
    { st with standalone := st.standalone ++ [issue] }

/-- Shallow embedding of `JiraClient.group_issues_by_parent`. -/
def group_issues_by_parent (issues : List Issue) : Grouped :=
  issues.foldl groupStep ⟨[], []⟩

/-! ## Reconciliation (generate_api_report.py, fetch_sprint_data, lines 102-191) -/

/-- The aggregate result of `fetch_sprint_data`: grouped epics, standalone
issues, and the separately kept `epic_details` mapping. -/
structure GroupedResult where
  epics : List (String × EpicGroup)
  standalone : List Issue
  epic_details : List (String × Issue)
deriving DecidableEq, Repr

/-- `valid_issue_keys`: keys of the issues returned by the original JQL
query (the query key set K, as a list whose membership is the set). -/
def valid_issue_keys (parsed : List Issue) : List String :=
  parsed.map (·.key)

/-- Membership in the original query key set K. -/
def inK (parsed : List Issue) (k : String) : Bool :=
  (valid_issue_keys parsed).contains k

/-- `epics_in_jql`: keys of issues in the query result whose type is Epic. -/
def epics_in_jql (parsed : List Issue) : List String :=
  (parsed.filter (fun i => i.issuetype == "Epic")).map (·.key)

/-- Membership in `epics_in_jql`. -/
def inEpicsInJql (parsed : List Issue) (k : String) : Bool :=
  (epics_in_jql parsed).contains k

/-- `epic_links_from_children`: the non-empty `epic_link` values among the
query result issues. -/
def epic_links_from_children (parsed : List Issue) : List String :=
  (parsed.filter (fun i => i.epic_link ≠ "")).map (·.epic_link)

/-- `epic_keys_to_fetch = epic_links_from_children - epics_in_jql`. -/
def epic_keys_to_fetch (parsed : List Issue) : List String :=
  (epic_links_from_children parsed).filter
    (fun k => !(epics_in_jql parsed).contains k)

/-- The `epic_details` dict: epics found in the query result, then (when the
fetch set is non-empty) the normalized supplementary query results merged
in on top.  `fetched` stands for the parsed issues the supplementary
`search_issues` call returned. -/
def epic_details_of (parsed fetched : List Issue) : List (String × Issue) :=
  let base := parsed.foldl
    (fun m i => if i.issuetype == "Epic" then dictInsert m i.key i else m) []
  if (epic_keys_to_fetch parsed).isEmpty then base
  else fetched.foldl (fun m i => dictInsert m i.key i) base

/-- The epic-filtering pass of fetch_sprint_data (lines 166-182): keep an
epic iff it was in the query or has a child from the query; trim its
children to the query key set; drop it when nothing survives and it was
not itself in the query. -/
def filterEpics (inE : String → Bool) (inQ : String → Bool) :
    List (String × EpicGroup) → List (String × EpicGroup)
  | [] => []
  | (k, e) :: t =>
    if inE k || e.children.any (fun c => inQ c.key) then
      if !(e.children.filter (fun c => inQ c.key)).isEmpty || inE k then
        (k, { e with children := e.children.filter (fun c => inQ c.key) }) ::
          filterEpics inE inQ t
      else filterEpics inE inQ t
    else filterEpics inE inQ t

/-- The reconciliation step of `fetch_sprint_data` applied to a grouped
result: epic filtering, standalone trimming, and attaching `epic_details`
(all the key sets being computed from the parsed query result). -/
def reconcile (parsed fetched : List Issue) (g : GroupedResult) : GroupedResult :=
  { epics := filterEpics (inEpicsInJql parsed) (inK parsed) g.epics,
    standalone := g.standalone.filter (fun i => inK parsed i.key),
    epic_details := epic_details_of parsed fetched }

/-- Shallow embedding of `fetch_sprint_data`, from the parsed query result
and the parsed supplementary fetch result to the final grouped data. -/
def fetch_sprint_data (parsed fetched : List Issue) : GroupedResult :=
  let gd := group_issues_by_parent parsed
  reconcile parsed fetched
    { epics := gd.epics, standalone := gd.standalone, epic_details := [] }

/-! ## Epic status (generate_api_report.py lines 193-204) -/

/-- ASCII lowercasing of a string, modelling Python `str.lower` on the
status and name values this code handles. -/
def strLower (s : String) : String :=
  (s.data.map Char.toLower).asString

/-- Shallow embedding of `determine_epic_status`. -/
def determine_epic_status (epic_data : EpicGroup) : String :=
  let children := epic_data.children
  if children.isEmpty then "Unknown"
  else
    let done_count := children.countP (fun c => strLower c.status_category == "done")
    if done_count = children.length then "Done" else "In Progress"

/-! ## Text helpers for generate_epic_summary (generate_api_report.py 206-275) -/

/-- Whether `needle` is a prefix of `hay` (character lists). -/
def isPrefixCh : List Char → List Char → Bool
  | [], _ => true
  | _ :: _, [] => false
  | a :: as, b :: bs => a == b && isPrefixCh as bs

/-- Whether `needle` occurs as a contiguous substring of `hay`
(character lists). -/
def containsCh (hay needle : List Char) : Bool :=
  match hay with
  | [] => needle.isEmpty
  | _ :: t => isPrefixCh needle hay || containsCh t needle

/-- Python `needle in hay` on strings. -/
def strIn (needle hay : String) : Bool :=
  containsCh hay.data needle.data

/-- Leftmost match of the pattern `oc [^cc]+ cc` (e.g. `\(([^)]+)\)` or
`\[([^\]]+)\]`): scan for the first opening delimiter that is followed, at
distance at least one, by the closing delimiter, and return the characters
between them. -/
def firstDelim (oc cc : Char) : List Char → Option (List Char)
  | [] => none
  | c :: t =>
    if c == oc then
      let pre := t.takeWhile (fun d => d != cc)
      if !pre.isEmpty && pre.length < t.length then some pre
      else firstDelim oc cc t
    else firstDelim oc cc t

/-- Python `s.strip()` on character lists: drop whitespace at both ends. -/
def stripCh (cs : List Char) : List Char :=
  ((cs.dropWhile Char.isWhitespace).reverse.dropWhile Char.isWhitespace).reverse

/-- Python `s.rsplit(' ', 1)`: split at the last space, if any. -/
def rsplitSpace1 (s : String) : List String :=
  let r := s.data.reverse
  let pre := r.takeWhile (fun c => c != ' ')
  if pre.length = r.length then [s]
  else [((r.drop (pre.length + 1)).reverse).asString, pre.reverse.asString]

/-- Python `d[k] = d.get(k, 0) + 1` on a counts dict: bump the count stored
at `k`, inserting it at the end when first seen. -/
def bump : List (String × Nat) → String → List (String × Nat)
  | [], k => [(k, 1)]
  | (k', n) :: t, k =>
    if k' = k then (k', n + 1) :: t else (k', n) :: bump t k

/-- Code-point comparison of characters (Python string ordering). -/
def charLt (a b : Char) : Bool :=
  a.val < b.val

/-- Lexicographic code-point comparison of character lists. -/
def charListLt : List Char → List Char → Bool
  | [], [] => false
  | [], _ :: _ => true
  | _ :: _, [] => false
  | a :: as, b :: bs => if a == b then charListLt as bs else charLt a b

/-- Python `a < b` on strings. -/
def strLtB (a b : String) : Bool :=
  charListLt a.data b.data

/-- Insert into a list sorted by `le`. -/
def insertLe {α : Type} (le : α → α → Bool) (x : α) : List α → List α
  | [] => [x]
  | y :: t => if le x y then x :: y :: t else y :: insertLe le x t

/-- Insertion sort by `le`; with a total order on the keys this is the
output of Python `sorted`. -/
def sortLe {α : Type} (le : α → α → Bool) : List α → List α
  | [] => []
  | x :: t => insertLe le x (sortLe le t)

/-- Python `sorted(d.items())` for a string-keyed counts dict (keys are
distinct, so sorting by key alone determines the order). -/
def sortedItems (m : List (String × Nat)) : List (String × Nat) :=
  sortLe (fun a b => !strLtB b.1 a.1) m

/-- Python `sorted(set(xs))` for a list of strings: distinct values in
ascending order. -/
def sortedDistinct (xs : List String) : List String :=
  sortLe (fun a b => !strLtB b a) xs.eraseDups

/-- Python `str.title()`: uppercase each letter that follows a non-letter,
lowercase the other letters.  The boolean records whether the previous
character was a letter. -/
def titleCh : Bool → List Char → List Char
  | _, [] => []
  | prevAlpha, c :: t =>
    if c.isAlpha then
      (if prevAlpha then c.toLower else c.toUpper) :: titleCh true t
    else c :: titleCh false t

/-- Python `s.title()`. -/
def titleStr (s : String) : String :=
  (titleCh false s.data).asString

/-- Python `s.split('-')` on character lists: pieces between every `-`. -/
def splitDash : List Char → List (List Char)
  | [] => [[]]
  | c :: t =>
    let rest := splitDash t
    if c == '-' then [] :: rest
    else
      match rest with
      | [] => [[c]]
      | p :: ps => (c :: p) :: ps

/-! ### The dotted-version-range pattern of strategy A

Leftmost search for `(\d+\.\d+(?:\.\d+)?)\s*-\s*(\d+\.\d+(?:\.\d+)?)`,
with the greedy optional third version component backtracking exactly as
the regex engine does. -/

/-- A maximal non-empty run of digits and the rest, if the list starts with
a digit. -/
def digits1 (cs : List Char) : Option (List Char × List Char) :=
  let d := cs.takeWhile Char.isDigit
  if d.isEmpty then none else some (d, cs.drop d.length)

/-- Parse `\d+\.\d+(?:\.\d+)?` at the front: returns the two-component
match with its rest, plus (when the greedy optional part matches) the
three-component match with its rest. -/
def numCore (cs : List Char) :
    Option ((List Char × List Char) × Option (List Char × List Char)) :=
  match digits1 cs with
  | none => none
  | some (d1, r1) =>
    match r1 with
    | '.' :: r2 =>
      (match digits1 r2 with
       | none => none
       | some (d2, r3) =>
         let short := d1 ++ '.' :: d2
         let ext :=
           match r3 with
           | '.' :: r4 =>
             (match digits1 r4 with
              | some (d3, r5) => some (short ++ '.' :: d3, r5)
              | none => none)
           | _ => none
         some ((short, r3), ext))
    | _ => none

/-- Consume `\s*-\s*`. -/
def sepDash (cs : List Char) : Option (List Char) :=
  match cs.dropWhile Char.isWhitespace with
  | '-' :: t => some (t.dropWhile Char.isWhitespace)
  | _ => none

/-- After a candidate first group `g1` with rest `rest`, try to complete
the pattern with the separator and the second version group (greedy on its
optional part, which nothing follows). -/
def verTail (g1 rest : List Char) : Option (String × String) :=
  match sepDash rest with
  | none => none
  | some r2 =>
    match numCore r2 with
    | none => none
    | some ((short2, _), ext2) =>
      match ext2 with
      | some (full2, _) => some (g1.asString, full2.asString)
      | none => some (g1.asString, short2.asString)

/-- Try the whole pattern anchored at the current position: greedy first
group (three components when possible), backtracking to two components
when the rest of the pattern fails. -/
def verAt (cs : List Char) : Option (String × String) :=
  match numCore cs with
  | none => none
  | some ((short1, rShort1), ext1) =>
    match ext1 with
    | some (full1, rFull1) =>
      (match verTail full1 rFull1 with
       | some m => some m
       | none => verTail short1 rShort1)
    | none => verTail short1 rShort1

/-- Leftmost match of the version-range pattern (`re.search`). -/
def searchVer : List Char → Option (String × String)
  | [] => none
  | c :: t =>
    match verAt (c :: t) with
    | some m => some m
    | none => searchVer t

/-! ## generate_epic_summary (generate_api_report.py lines 206-275) -/

/-- Children whose (lowercased) status category is `done`. -/
def doneChildren (children : List Issue) : List Issue :=
  children.filter (fun c => strLower c.status_category == "done")

/-- The generic count-based summary (the final `else` branch). -/
def genericSummary (children : List Issue) : String :=
  let total := children.length
  let done_count := (doneChildren children).length
  if done_count = total && total > 0 then
    s!"Completed all {total} related tasks."
  else if done_count > 0 then
    s!"Completed {done_count} of {total} tasks."
  else
    s!"{total} tasks tracked."

/-- Strategy A: the Istio-rollout branch. -/
def istioSummary (epic_name : String) (done_children : List Issue)
    (done_count : Nat) : String :=
  let version_str :=
    match searchVer epic_name.data with
    | some (a, b) => a ++ " to " ++ b
    | none => "upgrade"
  let service_env_counts := done_children.foldl
    (fun m child =>
      match firstDelim '(' ')' child.summary.data with
      | some tok =>
        let service_env := (stripCh tok).asString
        (match rsplitSpace1 service_env with
         | [service, env] => bump m (service ++ " " ++ env)
         | _ => bump m service_env)
      | none => m) []
  let summary_parts := (sortedItems service_env_counts).map
    (fun p =>
      let cluster_word := if p.2 = 1 then "cluster" else "clusters"
      p.1 ++ " - " ++ toString p.2 ++ " " ++ cluster_word)
  if !summary_parts.isEmpty then
    "Completed Istio " ++ version_str ++ " rollout:<br>" ++
      String.intercalate "<br>" summary_parts
  else
    "Completed Istio " ++ version_str ++ " rollout across " ++
      toString done_count ++ " clusters."

/-- Strategy B: the ArgoCD-migration branch. -/
def argocdSummary (epic_name : String) (done_children : List Issue) : String :=
  let component0 :=
    if strIn "-" epic_name then
      (stripCh ((splitDash epic_name.data).getLastD [])).asString
    else "component"
  let component := titleStr component0
  let env_list := done_children.foldl
    (fun l child =>
      match firstDelim '[' ']' child.summary.data with
      | some tok => l ++ [tok.asString]
      | none => l) []
  if !env_list.isEmpty then
    let unique_envs := sortedDistinct env_list
    if unique_envs.length = 1 then
      "Migrated " ++ component ++ " to ArgoCD in " ++ unique_envs.headD "" ++ "."
    else
      "Migrated " ++ component ++ " to ArgoCD across " ++
        String.intercalate ", " unique_envs ++ " environments."
  else
    "Completed ArgoCD migration for " ++ component ++ "."

/-- Shallow embedding of `generate_epic_summary`: strategy selection by
case-insensitive substring tests on the group's epic name. -/
def generate_epic_summary (epic_data : EpicGroup) : String :=
  let children := epic_data.children
  let epic_name := strLower epic_data.epic_name
  let done_children := doneChildren children
  let done_count := done_children.length
  if strIn "istio" epic_name && strIn "rollout" epic_name then
    istioSummary epic_name done_children done_count
  else if strIn "argocd" epic_name then
    argocdSummary epic_name done_children
  else
    genericSummary children

/-! ## Report entries (generate_api_report.py lines 277-319) -/

/-- One row of the report table, before rendering (the dicts appended to
`epic_entries`). -/
structure ReportEntry where
  epic_key : String
  description : String
  targeted_sprint : String
  status : String
  details : String
deriving DecidableEq, Repr

/-- Python `a or b` on the strings this code chains (empty string and the
`None` of a missing key are both falsy and are modelled as `""`). -/
def orS (a b : String) : String :=
  if a ≠ "" then a else b

/-- Read a field of an optional record, `""` when absent (a `.get` on the
`{}` default of `epic_details.get(epic_key, {})`). -/
def optField (o : Option Issue) (f : Issue → String) : String :=
  match o with
  | some i => f i
  | none => ""

/-- The group dicts built by `group_issues_by_parent` carry exactly the
keys `epic_key`, `epic_name` and `children`, so `epic_data.get('status')`
is always `None`; this is that constant. -/
def EpicGroup.statusField (_ : EpicGroup) : String := ""

/-- The entry built for one epic row (lines 292-308): status from fetched
epic details, then the group dict, then the derived status; description
from the fetched summary, fetched epic name, group epic name, then the
`Epic {key}` placeholder. -/
def mkEpicEntry (epic_details : List (String × Issue)) (epic_key : String)
    (epic_data : EpicGroup) : ReportEntry :=
  let epic_info := alookup epic_details epic_key
  let epic_status :=
    orS (orS (optField epic_info (·.status)) epic_data.statusField)
      (determine_epic_status epic_data)
  let targeted_sprint := optField epic_info (·.sprint)
  let epic_name :=
    orS (orS (orS (optField epic_info (·.summary)) (optField epic_info (·.epic_name)))
          epic_data.epic_name)
      ("Epic " ++ epic_key)
  { epic_key := epic_key, description := epic_name,
    targeted_sprint := targeted_sprint, status := epic_status,
    details := generate_epic_summary epic_data }

/-- Python `s[:200]` (character count). -/
def take200 (s : String) : String :=
  (s.data.take 200).asString

/-- The entry built for one standalone row (lines 311-319). -/
def mkStandaloneEntry (issue : Issue) : ReportEntry :=
  { epic_key := issue.key, description := issue.summary,
    targeted_sprint := "",
    status := orS issue.status issue.status_category,
    details := take200 issue.summary }

/-! ## search_issues pagination (jira_client.py lines 58-98) -/

/-- One page of a search response: the `issues` list (keys suffice for the
pagination logic) and the server-reported `total`. -/
structure Page where
  issues : List String
  total : Nat
deriving DecidableEq, Repr

/-- Outcome of the pagination loop: normal return, an exception raised by a
page request (recording what had been accumulated when it was raised), or
fuel exhaustion (a model artifact only; any concrete run gets enough fuel). -/
inductive SearchOutcome where
  | ok : List String → SearchOutcome
  | failed : List String → SearchOutcome
  | fuelOut : SearchOutcome
deriving DecidableEq, Repr

/-- The `while True` pagination loop: fetch a page at `startAt` (where
`none` models a raised `RequestException`), extend the accumulator, stop
when the count reaches the reported total or a page comes back empty. -/
def searchLoop (fetch : Nat → Option Page) : Nat → Nat → List String → SearchOutcome
  | 0, _, _ => .fuelOut
  | fuel + 1, startAt, acc =>
    match fetch startAt with
    | none => .failed acc
    | some page =>
      let acc' := acc ++ page.issues
      if page.total ≤ startAt + page.issues.length || page.issues.length = 0 then
        .ok acc'
      else
        searchLoop fetch fuel (startAt + page.issues.length) acc'

/-- Shallow embedding of `search_issues`: the whole loop runs inside one
`try`, and the `except` clause returns the empty list. -/
def search_issues (fetch : Nat → Option Page) (fuel : Nat) : List String :=
  match searchLoop fetch fuel 0 [] with
  | .ok issues => issues
  | .failed _ => []
  | .fuelOut => []

/-! ## Theorems settling the claims -/

/-- C2: `determine_epic_status` returns "Unknown" iff the children list is
empty; returns "Done" iff the children list is non-empty and every child's
status category equals "done" case-insensitively (modelled as equality of
the lowercased string); and returns "In Progress" in every other case. -/
theorem determine_epic_status_cases (g : EpicGroup) :
    (determine_epic_status g = "Unknown" ↔ g.children = []) ∧
    (determine_epic_status g = "Done" ↔
      g.children ≠ [] ∧ ∀ c ∈ g.children, strLower c.status_category = "done") ∧
    (determine_epic_status g = "In Progress" ↔
      g.children ≠ [] ∧ ¬ ∀ c ∈ g.children, strLower c.status_category = "done") := by
  unfold determine_epic_status
  by_cases hc : g.children = []
  · simp [hc]
  · have hne : g.children.isEmpty = false := by
      simpa [List.isEmpty_iff] using hc
    simp only [hne, Bool.false_eq_true, if_false]
    have hall : (g.children.countP (fun c => strLower c.status_category == "done")
        = g.children.length) ↔ ∀ c ∈ g.children, strLower c.status_category = "done" := by
      rw [List.countP_eq_length]
      simp
    by_cases hdone : ∀ c ∈ g.children, strLower c.status_category = "done"
    · rw [if_pos (hall.mpr hdone)]
      exact ⟨iff_of_false (by decide) hc, iff_of_true rfl ⟨hc, hdone⟩,
        iff_of_false (by decide) (fun h => h.2 hdone)⟩
    · rw [if_neg (fun h => hdone (hall.mp h))]
      exact ⟨iff_of_false (by decide) hc, iff_of_false (by decide) (fun h => hdone h.2),
        iff_of_true rfl ⟨hc, hdone⟩⟩

theorem determine_epic_status_cases_w :
    determine_epic_status ⟨"E1", "", [⟨"T1", "", "Done", "Done", "Task", "E1", "", ""⟩]⟩ = "Done" :=
  (determine_epic_status_cases _).2.1.mpr ⟨by decide, by decide⟩

/-- C3 counterexample input: page 0 succeeds with one issue and total 2,
page 1 raises. -/
def fetchC3 : Nat → Option Page := fun n => if n = 0 then some ⟨["A"], 2⟩ else none

/-- C3 counterexample: when the first page succeeds (one issue, reported
total 2) and the second page request fails, `search_issues` returns the
empty list — not the issues accumulated from the pages fetched so far, as
the claim states. -/
theorem search_issues_discards_accumulated :
    searchLoop fetchC3 2 0 [] = SearchOutcome.failed ["A"] ∧
    search_issues fetchC3 2 = [] ∧ ([] : List String) ≠ ["A"] :=
  ⟨rfl, rfl, by decide⟩

/-- C3 amended: if a page fetch fails at any point during `search_issues`
pagination — even after earlier pages succeeded — the whole `try` block is
aborted and `search_issues` returns the empty list, discarding the issues
accumulated so far (so the result is not the accumulated list); no
exception propagates past the function. -/
theorem search_issues_empty_of_failed (fetch : Nat → Option Page) (fuel : Nat)
    (acc : List String) (hacc : acc ≠ [])
    (h : searchLoop fetch fuel 0 [] = SearchOutcome.failed acc) :
    search_issues fetch fuel = [] ∧ search_issues fetch fuel ≠ acc := by
  unfold search_issues
  rw [h]
  exact ⟨rfl, Ne.symm hacc⟩

theorem search_issues_empty_of_failed_w :
    search_issues fetchC3 2 = [] ∧ search_issues fetchC3 2 ≠ ["A"] :=
  search_issues_empty_of_failed fetchC3 2 ["A"] (by decide) rfl

/-- C8: for every epic row of the report, when the `epic_details` record
for the epic carries a non-empty status string, the status column shows
that raw string verbatim; the derived `determine_epic_status` value is used
exactly when the record is absent or its status is empty (the group dicts
built by grouping never carry a status key, see `EpicGroup.statusField`). -/
theorem epic_status_column (epic_details : List (String × Issue)) (epic_key : String)
    (epic_data : EpicGroup) :
    (∀ i, alookup epic_details epic_key = some i → i.status ≠ "" →
      (mkEpicEntry epic_details epic_key epic_data).status = i.status) ∧
    (∀ i, alookup epic_details epic_key = some i → i.status = "" →
      (mkEpicEntry epic_details epic_key epic_data).status
        = determine_epic_status epic_data) ∧
    (alookup epic_details epic_key = none →
      (mkEpicEntry epic_details epic_key epic_data).status
        = determine_epic_status epic_data) := by
  refine ⟨?_, ?_, ?_⟩
  · intro i hi hne
    simp [mkEpicEntry, hi, optField, orS, hne, EpicGroup.statusField]
  · intro i hi he
    simp [mkEpicEntry, hi, optField, orS, he, EpicGroup.statusField]
  · intro hn
    simp [mkEpicEntry, hn, optField, orS, EpicGroup.statusField]

def iC8 : Issue := ⟨"E1", "Sum", "Blocked", "In Progress", "Epic", "", "Name", "S1"⟩

theorem epic_status_column_w :
    (mkEpicEntry [("E1", iC8)] "E1" ⟨"E1", "", []⟩).status = "Blocked" :=
  (epic_status_column [("E1", iC8)] "E1" ⟨"E1", "", []⟩).1 iC8 (by decide) (by decide)

/-! ### dictionary lemmas -/

theorem alookup_dictInsert {α : Type} (m : List (String × α)) (k : String) (v : α)
    (k' : String) :
    alookup (dictInsert m k v) k' = if k = k' then some v else alookup m k' := by
  induction m with
  | nil => simp [dictInsert, alookup]
  | cons p t ih =>
    obtain ⟨b, w⟩ := p
    by_cases hb : b = k
    · subst hb
      by_cases hk : b = k'
      · subst hk
        simp [dictInsert, alookup]
      · simp [dictInsert, alookup, hk]
    · by_cases hk : b = k'
      · subst hk
        have : ¬ k = b := fun h => hb h.symm
        simp [dictInsert, alookup, hb, this]
      · simp [dictInsert, alookup, hb, hk, ih]

theorem alookup_appendChild (m : List (String × EpicGroup)) (k : String) (i : Issue)
    (k' : String) :
    alookup (appendChild m k i) k' =
      if k = k' then
        (alookup m k').map (fun g => { g with children := g.children ++ [i] })
      else alookup m k' := by
  induction m with
  | nil => simp [appendChild, alookup]
  | cons p t ih =>
    obtain ⟨b, g⟩ := p
    by_cases hb : b = k
    · subst hb
      by_cases hk : b = k'
      · subst hk
        simp [appendChild, alookup]
      · simp [appendChild, alookup, hk, fun h : b = k' => hk h]
    · by_cases hk : b = k'
      · subst hk
        have : ¬ k = b := fun h => hb h.symm
        simp [appendChild, alookup, hb, this]
      · simp [appendChild, alookup, hb, hk, ih]

theorem alookup_append_single {α : Type} (m : List (String × α)) (k : String) (v : α)
    (k' : String) :
    alookup (m ++ [(k, v)]) k' =
      match alookup m k' with
      | some w => some w
      | none => if k = k' then some v else none := by
  induction m with
  | nil => simp [alookup]
  | cons p t ih =>
    obtain ⟨b, w⟩ := p
    by_cases hb : b = k'
    · simp [alookup, hb]
    · simp [alookup, hb, ih]

theorem hasKey_iff_alookup {α : Type} (m : List (String × α)) (k : String) :
    hasKey m k = true ↔ ∃ v, alookup m k = some v := by
  induction m with
  | nil => simp [hasKey, alookup]
  | cons p t ih =>
    obtain ⟨b, w⟩ := p
    by_cases hb : b = k
    · simp [hasKey, alookup, hb]
    · simp [hasKey, alookup, hb, ih]

/-! ### grouping invariants -/

theorem groupStep_sublist (st : Grouped) (i : Issue) (l0 : List Issue)
    (h : ∀ k g, alookup st.epics k = some g → g.children.Sublist l0) :
    ∀ k g, alookup (groupStep st i).epics k = some g →
      g.children.Sublist (l0 ++ [i]) := by
  intro k g hkg
  have hweak : ∀ {l : List Issue}, l.Sublist l0 → l.Sublist (l0 ++ [i]) :=
    fun hs => hs.trans (List.sublist_append_left l0 [i])
  unfold groupStep at hkg
  by_cases htype : i.issuetype = "Epic"
  · rw [if_pos htype] at hkg
    simp only [alookup_dictInsert] at hkg
    by_cases hik : i.key = k
    · rw [if_pos hik] at hkg
      cases hkg
      exact List.nil_sublist _
    · rw [if_neg hik] at hkg
      exact hweak (h k g hkg)
  · rw [if_neg htype] at hkg
    by_cases hlink : i.epic_link ≠ ""
    · rw [if_pos hlink] at hkg
      simp only [alookup_appendChild] at hkg
      by_cases hik : i.epic_link = k
      · rw [if_pos hik] at hkg
        by_cases hhk : hasKey st.epics i.epic_link = true
        · rw [if_pos hhk] at hkg
          obtain ⟨g0, hg0⟩ : ∃ g0, alookup st.epics k = some g0 := by
            obtain ⟨v, hv⟩ := (hasKey_iff_alookup _ _).mp hhk
            exact ⟨v, by rw [← hik]; exact hv⟩
          rw [hg0] at hkg
          cases hkg
          exact (h k g0 hg0).append_right [i]
        · rw [if_neg hhk] at hkg
          have hnone : alookup st.epics k = none := by
            cases halo : alookup st.epics k with
            | none => rfl
            | some v =>
              exact absurd ((hasKey_iff_alookup _ _).mpr ⟨v, hik ▸ halo⟩) hhk
          rw [alookup_append_single, hnone, if_pos hik] at hkg
          cases hkg
          exact (List.nil_sublist l0).append_right [i]
      · rw [if_neg hik] at hkg
        by_cases hhk : hasKey st.epics i.epic_link = true
        · rw [if_pos hhk] at hkg
          exact hweak (h k g hkg)
        · rw [if_neg hhk, alookup_append_single] at hkg
          cases halo : alookup st.epics k with
          | none =>
            rw [halo, if_neg hik] at hkg
            cases hkg
          | some v =>
            rw [halo] at hkg
            exact hweak (h k g (halo.trans hkg))
    · rw [if_neg hlink] at hkg
      exact hweak (h k g hkg)

theorem foldl_groupStep_sublist (issues : List Issue) (st : Grouped) (l0 : List Issue)
    (h : ∀ k g, alookup st.epics k = some g → g.children.Sublist l0) :
    ∀ k g, alookup (issues.foldl groupStep st).epics k = some g →
      g.children.Sublist (l0 ++ issues) := by
  induction issues generalizing st l0 with
  | nil => simpa using h
  | cons i rest ih =>
    intro k g hkg
    have := ih (groupStep st i) (l0 ++ [i]) (groupStep_sublist st i l0 h) k g hkg
    simpa using this

/-- C7: `group_issues_by_parent` is order-preserving — the children list
of every EpicGroup in its output is a sublist (subsequence) of the input
sequence, i.e. children appear within their epic in the same relative
order as they appear in the input. -/
theorem group_children_order_preserving (issues : List Issue) (k : String)
    (g : EpicGroup)
    (h : alookup (group_issues_by_parent issues).epics k = some g) :
    g.children.Sublist issues := by
  have := foldl_groupStep_sublist issues ⟨[], []⟩ [] (by simp [alookup]) k g h
  simpa using this

/-- Case analysis of one grouping step at a fixed key. -/
theorem groupStep_alookup_cases (st : Grouped) (i : Issue) (k : String) (g : EpicGroup)
    (h : alookup (groupStep st i).epics k = some g) :
    (i.issuetype = "Epic" ∧ i.key = k ∧
      g = ⟨i.key, if i.epic_name ≠ "" then i.epic_name else i.summary, []⟩) ∨
    (i.issuetype ≠ "Epic" ∧ i.epic_link = k ∧ i.epic_link ≠ "" ∧
      ((∃ g0, alookup st.epics k = some g0 ∧
          g = { g0 with children := g0.children ++ [i] }) ∨
       (alookup st.epics k = none ∧ g = ⟨i.epic_link, "", [i]⟩))) ∨
    alookup st.epics k = some g := by
  unfold groupStep at h
  by_cases htype : i.issuetype = "Epic"
  · rw [if_pos htype] at h
    simp only [alookup_dictInsert] at h
    by_cases hik : i.key = k
    · rw [if_pos hik] at h
      exact Or.inl ⟨htype, hik, (Option.some.inj h).symm⟩
    · rw [if_neg hik] at h
      exact Or.inr (Or.inr h)
  · rw [if_neg htype] at h
    by_cases hlink : i.epic_link ≠ ""
    · rw [if_pos hlink] at h
      simp only [alookup_appendChild] at h
      by_cases hik : i.epic_link = k
      · rw [if_pos hik] at h
        by_cases hhk : hasKey st.epics i.epic_link = true
        · rw [if_pos hhk] at h
          obtain ⟨g0, hg0⟩ : ∃ g0, alookup st.epics k = some g0 := by
            obtain ⟨v, hv⟩ := (hasKey_iff_alookup _ _).mp hhk
            exact ⟨v, hik ▸ hv⟩
          rw [hg0] at h
          exact Or.inr (Or.inl ⟨htype, hik, hlink,
            Or.inl ⟨g0, hg0, (Option.some.inj h).symm⟩⟩)
        · rw [if_neg hhk] at h
          have hnone : alookup st.epics k = none := by
            cases halo : alookup st.epics k with
            | none => rfl
            | some v =>
              exact absurd ((hasKey_iff_alookup _ _).mpr ⟨v, hik ▸ halo⟩) hhk
          rw [alookup_append_single, hnone, if_pos hik] at h
          exact Or.inr (Or.inl ⟨htype, hik, hlink,
            Or.inr ⟨hnone, (Option.some.inj h).symm⟩⟩)
      · rw [if_neg hik] at h
        by_cases hhk : hasKey st.epics i.epic_link = true
        · rw [if_pos hhk] at h
          exact Or.inr (Or.inr h)
        · rw [if_neg hhk, alookup_append_single] at h
          cases halo : alookup st.epics k with
          | none =>
            rw [halo, if_neg hik] at h
            cases h
          | some v =>
            rw [halo] at h
            exact Or.inr (Or.inr h)
    · rw [if_neg hlink] at h
      exact Or.inr (Or.inr h)

/-- The standalone list after one grouping step. -/
theorem groupStep_standalone (st : Grouped) (i : Issue) :
    (groupStep st i).standalone =
      if i.issuetype ≠ "Epic" ∧ i.epic_link = "" then st.standalone ++ [i]
      else st.standalone := by
  unfold groupStep
  by_cases htype : i.issuetype = "Epic"
  · simp [htype]
  · by_cases hlink : i.epic_link ≠ ""
    · simp [htype, hlink]
    · simp only [not_not] at hlink
      simp [htype, hlink]

theorem foldl_noEpic (issues : List Issue) (st : Grouped)
    (hc : ∀ k g, alookup st.epics k = some g → ∀ c ∈ g.children, c.issuetype ≠ "Epic")
    (hs : ∀ s ∈ st.standalone, s.issuetype ≠ "Epic") :
    (∀ k g, alookup (issues.foldl groupStep st).epics k = some g →
      ∀ c ∈ g.children, c.issuetype ≠ "Epic") ∧
    (∀ s ∈ (issues.foldl groupStep st).standalone, s.issuetype ≠ "Epic") := by
  induction issues generalizing st with
  | nil => exact ⟨hc, hs⟩
  | cons i rest ih =>
    refine ih (groupStep st i) ?_ ?_
    · intro k g hkg c hcmem
      rcases groupStep_alookup_cases st i k g hkg with
        ⟨_, _, rfl⟩ | ⟨htype, _, _, ⟨g0, hg0, rfl⟩ | ⟨_, rfl⟩⟩ | hold
      · simp at hcmem
      · rcases List.mem_append.mp hcmem with hm | hm
        · exact hc k g0 hg0 c hm
        · rw [List.mem_singleton.mp hm]; exact htype
      · rw [List.mem_singleton.mp hcmem]; exact htype
      · exact hc k g hold c hcmem
    · intro s hsm
      rw [groupStep_standalone] at hsm
      by_cases hcase : i.issuetype ≠ "Epic" ∧ i.epic_link = ""
      · rw [if_pos hcase] at hsm
        rcases List.mem_append.mp hsm with hm | hm
        · exact hs s hm
        · rw [List.mem_singleton.mp hm]; exact hcase.1
      · rw [if_neg hcase] at hsm
        exact hs s hsm

theorem groupStep_preserves_key (st : Grouped) (i : Issue) (k : String)
    (h : ∃ v, alookup st.epics k = some v) :
    ∃ w, alookup (groupStep st i).epics k = some w := by
  obtain ⟨v, hv⟩ := h
  unfold groupStep
  by_cases htype : i.issuetype = "Epic"
  · rw [if_pos htype]
    simp only [alookup_dictInsert]
    by_cases hik : i.key = k
    · exact ⟨_, by rw [if_pos hik]⟩
    · exact ⟨v, by rw [if_neg hik]; exact hv⟩
  · rw [if_neg htype]
    by_cases hlink : i.epic_link ≠ ""
    · rw [if_pos hlink]
      simp only [alookup_appendChild]
      by_cases hhk : hasKey st.epics i.epic_link = true
      · rw [if_pos hhk]
        by_cases hik : i.epic_link = k
        · exact ⟨_, by rw [if_pos hik, hv]; rfl⟩
        · exact ⟨v, by rw [if_neg hik]; exact hv⟩
      · rw [if_neg hhk]
        by_cases hik : i.epic_link = k
        · exact ⟨_, by rw [if_pos hik, alookup_append_single, hv]; rfl⟩
        · exact ⟨v, by rw [if_neg hik, alookup_append_single, hv]⟩
    · rw [if_neg hlink]
      exact ⟨v, hv⟩

theorem groupStep_epic_registers (st : Grouped) (i : Issue)
    (htype : i.issuetype = "Epic") :
    ∃ w, alookup (groupStep st i).epics i.key = some w := by
  unfold groupStep
  rw [if_pos htype]
  simp only [alookup_dictInsert]
  exact ⟨⟨i.key, if i.epic_name ≠ "" then i.epic_name else i.summary, []⟩, by simp⟩

theorem foldl_preserves_key (issues : List Issue) (st : Grouped) (k : String)
    (h : ∃ v, alookup st.epics k = some v) :
    ∃ w, alookup (issues.foldl groupStep st).epics k = some w := by
  induction issues generalizing st with
  | nil => exact h
  | cons i rest ih => exact ih (groupStep st i) (groupStep_preserves_key st i k h)

/-- C10: in `group_issues_by_parent` an issue whose type is "Epic" is only
ever registered as an EpicGroup entry: no group's children list and no
standalone entry ever contains an Epic-typed issue (even one carrying a
non-empty epic_link), and every Epic-typed input issue ends up with a group
entry at its key. -/
theorem epic_issues_only_registered (issues : List Issue) :
    (∀ k g, alookup (group_issues_by_parent issues).epics k = some g →
      ∀ c ∈ g.children, c.issuetype ≠ "Epic") ∧
    (∀ s ∈ (group_issues_by_parent issues).standalone, s.issuetype ≠ "Epic") ∧
    (∀ i ∈ issues, i.issuetype = "Epic" →
      ∃ g, alookup (group_issues_by_parent issues).epics i.key = some g) := by
  have base := foldl_noEpic issues ⟨[], []⟩ (by simp [alookup]) (by simp)
  refine ⟨base.1, base.2, ?_⟩
  intro i hi htype
  obtain ⟨l1, l2, rfl⟩ := List.append_of_mem hi
  unfold group_issues_by_parent
  rw [List.foldl_append, List.foldl_cons]
  refine foldl_preserves_key l2 _ i.key ?_
  exact groupStep_epic_registers (l1.foldl groupStep ⟨[], []⟩) i htype

theorem foldl_lazy_name (issues : List Issue) (st : Grouped) (k : String)
    (hno : ∀ i ∈ issues, i.issuetype = "Epic" → i.key ≠ k)
    (h : ∀ g, alookup st.epics k = some g → g.epic_name = "") :
    ∀ g, alookup (issues.foldl groupStep st).epics k = some g → g.epic_name = "" := by
  induction issues generalizing st with
  | nil => exact h
  | cons i rest ih =>
    refine ih (groupStep st i) (fun j hj => hno j (List.mem_cons_of_mem i hj)) ?_
    intro g hkg
    rcases groupStep_alookup_cases st i k g hkg with
      ⟨htype, hik, rfl⟩ | ⟨_, _, _, ⟨g0, hg0, rfl⟩ | ⟨_, rfl⟩⟩ | hold
    · exact absurd hik (hno i (List.mem_cons_self i rest) htype)
    · exact h g0 hg0
    · rfl
    · exact h g hold

/-- C9: every epic group at a key for which the input contains no
Epic-typed issue (in particular every group created lazily from a child's
epic_link — a reconciled epic) has the empty string as its epic name, so
`generate_epic_summary` takes the generic count-based strategy for it; and
the report entry's details column is independent of `epic_details`, so the
fetched name is never consulted for summary-strategy selection. -/
theorem reconciled_epic_generic_summary (issues : List Issue) (k : String)
    (g : EpicGroup)
    (hno : ∀ i ∈ issues, i.issuetype = "Epic" → i.key ≠ k)
    (hg : alookup (group_issues_by_parent issues).epics k = some g) :
    g.epic_name = "" ∧
    generate_epic_summary g = genericSummary g.children ∧
    ∀ d₁ d₂ : List (String × Issue),
      (mkEpicEntry d₁ k g).details = (mkEpicEntry d₂ k g).details := by
  have hname : g.epic_name = "" :=
    foldl_lazy_name issues ⟨[], []⟩ k hno (by simp [alookup]) g hg
  refine ⟨hname, ?_, fun d₁ d₂ => rfl⟩
  obtain ⟨gk, gn, gc⟩ := g
  simp only at hname
  subst hname
  rfl

def tW9 : Issue := ⟨"T1", "task one", "Done", "Done", "Task", "E9", "", ""⟩
def gW9 : EpicGroup := ⟨"E9", "", [tW9]⟩

theorem reconciled_epic_generic_summary_w :
    gW9.epic_name = "" ∧ generate_epic_summary gW9 = genericSummary gW9.children :=
  (fun h => ⟨h.1, h.2.1⟩)
    (reconciled_epic_generic_summary [tW9] "E9" gW9 (by decide) (by decide))

def eW10 : Issue := ⟨"E1", "epic one", "Done", "Done", "Epic", "E2", "Name", ""⟩

theorem epic_issues_only_registered_w :
    ∃ g, alookup (group_issues_by_parent [eW10]).epics eW10.key = some g :=
  (epic_issues_only_registered [eW10]).2.2 eW10 (by decide) (by decide)

def gW7 : EpicGroup := ⟨"E9", "", [tW9]⟩

theorem group_children_order_preserving_w : gW7.children.Sublist [tW9] :=
  group_children_order_preserving [tW9] "E9" gW7 (by decide)


theorem filterEpics_cons (inE inQ : String → Bool) (k : String) (e : EpicGroup)
    (t : List (String × EpicGroup)) :
    filterEpics inE inQ ((k, e) :: t) =
      if inE k || e.children.any (fun c => inQ c.key) then
        if !(e.children.filter (fun c => inQ c.key)).isEmpty || inE k then
          (k, { e with children := e.children.filter (fun c => inQ c.key) }) ::
            filterEpics inE inQ t
        else filterEpics inE inQ t
      else filterEpics inE inQ t := rfl

theorem filterEpics_children_inQ (inE inQ : String → Bool) :
    ∀ (l : List (String × EpicGroup)) (k : String) (g : EpicGroup),
      (k, g) ∈ filterEpics inE inQ l → ∀ c ∈ g.children, inQ c.key = true := by
  intro l
  induction l with
  | nil => simp [filterEpics]
  | cons p t ih =>
    obtain ⟨k', e⟩ := p
    intro k g hmem c hc
    rw [filterEpics_cons] at hmem
    by_cases h1 : (inE k' || e.children.any fun c => inQ c.key) = true
    · rw [if_pos h1] at hmem
      by_cases h2 : (!(e.children.filter fun c => inQ c.key).isEmpty || inE k') = true
      · rw [if_pos h2] at hmem
        rcases List.mem_cons.mp hmem with heq | htail
        · cases heq
          exact (List.mem_filter.mp hc).2
        · exact ih k g htail c hc
      · rw [if_neg h2] at hmem
        exact ih k g hmem c hc
    · rw [if_neg h1] at hmem
      exact ih k g hmem c hc

theorem inK_mem (parsed : List Issue) (k : String) (h : inK parsed k = true) :
    k ∈ valid_issue_keys parsed := by
  unfold inK at h
  exact List.elem_iff.mp h

/-- C1: every issue key appearing in the final GroupedResult of
`fetch_sprint_data` — inside some epic group's children list or in the
standalone list — is a member of the original query key set
`valid_issue_keys parsed`; hence issues fetched only as epic details never
appear as children or standalone entries. -/
theorem report_keys_from_query (parsed fetched : List Issue) :
    (∀ k g, (k, g) ∈ (fetch_sprint_data parsed fetched).epics →
      ∀ c ∈ g.children, c.key ∈ valid_issue_keys parsed) ∧
    (∀ i ∈ (fetch_sprint_data parsed fetched).standalone,
      i.key ∈ valid_issue_keys parsed) := by
  constructor
  · intro k g hkg c hc
    exact inK_mem parsed c.key
      (filterEpics_children_inQ _ _ _ k g hkg c hc)
  · intro i hi
    exact inK_mem parsed i.key (List.mem_filter.mp hi).2

def gW1 : EpicGroup := ⟨"E9", "", [tW9]⟩
def eW1 : Issue := ⟨"E9", "Epic nine", "In Progress", "In Progress", "Epic", "", "Nine", "S9"⟩

theorem report_keys_from_query_w : tW9.key ∈ valid_issue_keys [tW9] :=
  (report_keys_from_query [tW9] [eW1]).1 "E9" gW1 (by decide) tW9 (by decide)

theorem filterEpics_idem (inE inQ : String → Bool) :
    ∀ l, filterEpics inE inQ (filterEpics inE inQ l) = filterEpics inE inQ l := by
  intro l
  induction l with
  | nil => rfl
  | cons p t ih =>
    obtain ⟨k, e⟩ := p
    rw [filterEpics_cons]
    by_cases h1 : (inE k || e.children.any fun c => inQ c.key) = true
    · rw [if_pos h1]
      by_cases h2 : (!(e.children.filter fun c => inQ c.key).isEmpty || inE k) = true
      · rw [if_pos h2, filterEpics_cons]
        have hfc : ((e.children.filter fun c => inQ c.key).filter fun c => inQ c.key)
            = e.children.filter fun c => inQ c.key := by
          rw [List.filter_filter]
          simp
        have h1' : (inE k ||
            ((e.children.filter fun c => inQ c.key).any fun c => inQ c.key)) = true := by
          by_cases hE : inE k = true
          · rw [hE, Bool.true_or]
          · have hEf : inE k = false := by revert hE; cases inE k <;> simp
            rw [hEf, Bool.or_false] at h2
            rw [hEf, Bool.false_or, List.any_eq_true]
            have hne' : e.children.filter (fun c => inQ c.key) ≠ [] := by
              simpa [List.isEmpty_iff] using h2
            obtain ⟨c, hcmem⟩ := List.exists_mem_of_ne_nil _ hne'
            exact ⟨c, hcmem, (List.mem_filter.mp hcmem).2⟩
        rw [if_pos h1']
        simp only [hfc]
        rw [if_pos h2, ih]
      · rw [if_neg h2, ih]
    · rw [if_neg h1, ih]

/-- C6: reconciliation is idempotent — applying the phase-2
reconciliation step (key-set computation, epic-details merge, epic and
children filtering, standalone trimming) a second time to the GroupedResult
it produced yields an identical GroupedResult, for every grouping input,
query result and supplementary fetch. -/
theorem reconcile_idempotent (parsed fetched : List Issue) (g : GroupedResult) :
    reconcile parsed fetched (reconcile parsed fetched g) = reconcile parsed fetched g := by
  unfold reconcile
  simp only [GroupedResult.mk.injEq]
  refine ⟨filterEpics_idem _ _ _, ?_, trivial⟩
  rw [List.filter_filter]
  simp

def iC5 : Issue :=
  ⟨"E1", "Epic summary S", "In Progress", "In Progress", "Epic", "", "Epic name N", ""⟩

def gC5 : EpicGroup := ⟨"E1", "Group name G", []⟩

/-- C5 counterexample: for an epic whose fetched details carry both a
non-empty summary and a non-empty epic name, the description column equals
the summary and differs from both the fetched epic name and the group's
epic name — refuting the claim that the epic name takes precedence and the
summary is only a fallback. -/
theorem epic_description_prefers_summary :
    iC5.epic_name ≠ "" ∧ gC5.epic_name ≠ "" ∧
    (mkEpicEntry [("E1", iC5)] "E1" gC5).description = iC5.summary ∧
    (mkEpicEntry [("E1", iC5)] "E1" gC5).description ≠ iC5.epic_name ∧
    (mkEpicEntry [("E1", iC5)] "E1" gC5).description ≠ gC5.epic_name := by
  refine ⟨by decide, by decide, rfl, by decide, by decide⟩

/-- C5 amended: the description column of an epic row is the first
non-empty of: the epic's summary from `epic_details`, the epic name from
`epic_details`, the group's epic name, and the placeholder `Epic {key}`;
for every standalone row the description is the issue's summary. -/
theorem report_description_column (epic_details : List (String × Issue))
    (epic_key : String) (epic_data : EpicGroup) :
    (∀ i, alookup epic_details epic_key = some i →
      ((i.summary ≠ "" →
        (mkEpicEntry epic_details epic_key epic_data).description = i.summary) ∧
       (i.summary = "" → i.epic_name ≠ "" →
        (mkEpicEntry epic_details epic_key epic_data).description = i.epic_name) ∧
       (i.summary = "" → i.epic_name = "" → epic_data.epic_name ≠ "" →
        (mkEpicEntry epic_details epic_key epic_data).description
          = epic_data.epic_name) ∧
       (i.summary = "" → i.epic_name = "" → epic_data.epic_name = "" →
        (mkEpicEntry epic_details epic_key epic_data).description
          = "Epic " ++ epic_key))) ∧
    (alookup epic_details epic_key = none →
      ((epic_data.epic_name ≠ "" →
        (mkEpicEntry epic_details epic_key epic_data).description
          = epic_data.epic_name) ∧
       (epic_data.epic_name = "" →
        (mkEpicEntry epic_details epic_key epic_data).description
          = "Epic " ++ epic_key))) ∧
    (∀ issue : Issue, (mkStandaloneEntry issue).description = issue.summary) := by
  refine ⟨?_, ?_, fun issue => rfl⟩
  · intro i hi
    refine ⟨?_, ?_, ?_, ?_⟩
    · intro h1
      simp [mkEpicEntry, hi, optField, orS, h1]
    · intro h1 h2
      simp [mkEpicEntry, hi, optField, orS, h1, h2]
    · intro h1 h2 h3
      simp [mkEpicEntry, hi, optField, orS, h1, h2, h3]
    · intro h1 h2 h3
      simp [mkEpicEntry, hi, optField, orS, h1, h2, h3]
  · intro hn
    refine ⟨?_, ?_⟩
    · intro h1
      simp [mkEpicEntry, hn, optField, orS, h1]
    · intro h1
      simp [mkEpicEntry, hn, optField, orS, h1]

theorem report_description_column_w :
    (mkEpicEntry [("E1", iC5)] "E1" gC5).description = iC5.summary :=
  ((report_description_column [("E1", iC5)] "E1" gC5).1 iC5 (by decide)).1 (by decide)

/-! ### C4 lemmas -/

theorem pyGet_obj (fs : List (String × JVal)) (k : String) (d : JVal) :
    pyGet (JVal.obj fs) k d = Except.ok (lookupD fs k d) := rfl

theorem ok_bind {α β : Type} (a : α) (f : α → Except PyErr β) :
    (Except.ok a >>= f : Except PyErr β) = f a := rfl

theorem lookupD_str (fs : List (String × JVal)) (k : String) (d : String)
    (h : strOrAbsent fs k = true) : ∃ s, lookupD fs k (JVal.str d) = JVal.str s := by
  unfold strOrAbsent at h
  unfold lookupD
  cases halo : alookup fs k with
  | none =>
    exact ⟨d, rfl⟩
  | some v =>
    rw [halo] at h
    cases v with
    | str s => exact ⟨s, rfl⟩
    | null => simp at h
    | bool b => simp at h
    | num n => simp at h
    | arr xs => simp at h
    | obj o => simp at h

theorem lookupD_obj (fs : List (String × JVal)) (k : String)
    (h : objOrAbsent fs k = true) : ∃ o, lookupD fs k (JVal.obj []) = JVal.obj o := by
  unfold objOrAbsent at h
  unfold lookupD
  cases halo : alookup fs k with
  | none =>
    exact ⟨[], rfl⟩
  | some v =>
    rw [halo] at h
    cases v with
    | obj o => exact ⟨o, rfl⟩
    | null => simp at h
    | bool b => simp at h
    | num n => simp at h
    | arr xs => simp at h
    | str s => simp at h

theorem lookupD_status (fs : List (String × JVal)) (h : statusShapeOK fs = true) :
    ∃ sfs, lookupD fs "status" (JVal.obj []) = JVal.obj sfs ∧
      strOrAbsent sfs "name" = true ∧ statusCategoryOK sfs = true := by
  unfold statusShapeOK at h
  unfold lookupD
  cases halo : alookup fs "status" with
  | none =>
    exact ⟨[], rfl, rfl, rfl⟩
  | some v =>
    rw [halo] at h
    cases v with
    | obj sfs =>
      rw [Bool.and_eq_true] at h
      obtain ⟨h1, h2⟩ := h
      exact ⟨sfs, rfl, h1, h2⟩
    | null => simp at h
    | bool b => simp at h
    | num n => simp at h
    | arr xs => simp at h
    | str s => simp at h

theorem lookupD_statusCategory (sfs : List (String × JVal))
    (h : statusCategoryOK sfs = true) :
    ∃ cfs, lookupD sfs "statusCategory" (JVal.obj []) = JVal.obj cfs ∧
      strOrAbsent cfs "name" = true := by
  unfold statusCategoryOK at h
  unfold lookupD
  cases halo : alookup sfs "statusCategory" with
  | none =>
    exact ⟨[], rfl, rfl⟩
  | some v =>
    rw [halo] at h
    cases v with
    | obj cfs => exact ⟨cfs, rfl, h⟩
    | null => simp at h
    | bool b => simp at h
    | num n => simp at h
    | arr xs => simp at h
    | str s => simp at h

theorem lookupD_objName (fs : List (String × JVal)) (k : String)
    (h : objNameOK fs k = true) :
    ∃ ifs, lookupD fs k (JVal.obj []) = JVal.obj ifs ∧
      strOrAbsent ifs "name" = true := by
  unfold objNameOK at h
  unfold lookupD
  cases halo : alookup fs k with
  | none =>
    exact ⟨[], rfl, rfl⟩
  | some v =>
    rw [halo] at h
    cases v with
    | obj ifs => exact ⟨ifs, rfl, h⟩
    | null => simp at h
    | bool b => simp at h
    | num n => simp at h
    | arr xs => simp at h
    | str s => simp at h

theorem lookupD_parentFields (pfs : List (String × JVal))
    (h : parentFieldsOK pfs = true) :
    ∃ pff, lookupD pfs "fields" (JVal.obj []) = JVal.obj pff ∧
      strOrAbsent pff "summary" = true ∧ objOrAbsent pff "issuetype" = true := by
  unfold parentFieldsOK at h
  unfold lookupD
  cases halo : alookup pfs "fields" with
  | none =>
    exact ⟨[], rfl, rfl, rfl⟩
  | some v =>
    rw [halo] at h
    cases v with
    | obj pff =>
      rw [Bool.and_eq_true] at h
      obtain ⟨h1, h2⟩ := h
      exact ⟨pff, rfl, h1, h2⟩
    | null => simp at h
    | bool b => simp at h
    | num n => simp at h
    | arr xs => simp at h
    | str s => simp at h

theorem if_bool_true {α : Type} (a b : α) : (if true = true then a else b) = a := rfl

theorem if_bool_false {α : Type} (a b : α) : (if false = true then a else b) = b := rfl

theorem parentExprs_ok (fs : List (String × JVal)) (h : parentShapeOK fs = true) :
    (∃ a, epicLink0Expr (lookupD fs "parent" (JVal.obj [])) = Except.ok (JVal.str a)) ∧
    (∃ b, parentKeyExpr (lookupD fs "parent" (JVal.obj [])) = Except.ok (JVal.str b)) ∧
    (∃ c, parentSummaryExpr (lookupD fs "parent" (JVal.obj [])) = Except.ok (JVal.str c)) := by
  unfold parentShapeOK at h
  have hLD : ∀ (p : JVal), lookupD fs "parent" (JVal.obj []) = p →
      JVal.truthy p = false →
      (∃ a, epicLink0Expr (lookupD fs "parent" (JVal.obj [])) = Except.ok (JVal.str a)) ∧
      (∃ b, parentKeyExpr (lookupD fs "parent" (JVal.obj [])) = Except.ok (JVal.str b)) ∧
      (∃ c, parentSummaryExpr (lookupD fs "parent" (JVal.obj [])) = Except.ok (JVal.str c)) := by
    intro p hp ht
    rw [hp]
    unfold epicLink0Expr parentKeyExpr parentSummaryExpr
    rw [ht]
    exact ⟨⟨"", rfl⟩, ⟨"", rfl⟩, ⟨"", rfl⟩⟩
  cases halo : alookup fs "parent" with
  | none =>
    exact hLD (JVal.obj []) (by unfold lookupD; rw [halo]) rfl
  | some v =>
    rw [halo] at h
    have hp : lookupD fs "parent" (JVal.obj []) = v := by unfold lookupD; rw [halo]
    cases v with
    | null => exact hLD JVal.null hp rfl
    | bool b => simp at h
    | num n => simp at h
    | str s => simp at h
    | arr xs => simp at h
    | obj pfs =>
      rw [Bool.and_eq_true] at h
      obtain ⟨hkey, hflds⟩ := h
      cases ht : JVal.truthy (JVal.obj pfs) with
      | false => exact hLD (JVal.obj pfs) hp ht
      | true =>
        rw [hp]
        obtain ⟨pff, hpff, hpsum, hpit⟩ := lookupD_parentFields pfs hflds
        obtain ⟨itf, hitf⟩ := lookupD_obj pff "issuetype" hpit
        obtain ⟨kb, hkb⟩ := lookupD_str pfs "key" "" hkey
        obtain ⟨cs, hcs⟩ := lookupD_str pff "summary" "" hpsum
        refine ⟨?_, ⟨kb, ?_⟩, ⟨cs, ?_⟩⟩
        · unfold epicLink0Expr
          rw [ht]
          simp only [if_true, pyGet_obj, ok_bind, hpff, hitf]
          cases hbn : (lookupD itf "name" JVal.null).beqStr "Epic" with
          | true => exact ⟨kb, by rw [if_bool_true, hkb]⟩
          | false => exact ⟨"", by rw [if_bool_false]; rfl⟩
        · unfold parentKeyExpr
          rw [ht]
          simp only [if_true, pyGet_obj, hkb]
        · unfold parentSummaryExpr
          rw [ht]
          simp only [if_true, pyGet_obj, ok_bind, hpff, hcs]

theorem epicLinkExpr_ok (fs : List (String × JVal)) (a : String)
    (h : strOrAbsent fs "customfield_10014" = true) :
    ∃ t, epicLinkExpr (JVal.obj fs) (JVal.str a) = Except.ok (JVal.str t) := by
  unfold epicLinkExpr
  cases ht : JVal.truthy (JVal.str a) with
  | true => exact ⟨a, by rw [if_bool_true]; rfl⟩
  | false =>
    obtain ⟨s, hs⟩ := lookupD_str fs "customfield_10014" "" h
    exact ⟨s, by rw [if_bool_false, pyGet_obj, hs]⟩

theorem sprintExpr_ok (fs : List (String × JVal)) (h : sprintShapeOK fs = true) :
    ∃ s, sprintExpr (lookupD fs "customfield_10020" (JVal.arr []))
      = Except.ok (JVal.str s) := by
  unfold sprintShapeOK at h
  cases halo : alookup fs "customfield_10020" with
  | none =>
    have hp : lookupD fs "customfield_10020" (JVal.arr []) = JVal.arr [] := by
      unfold lookupD; rw [halo]
    rw [hp]
    exact ⟨"", rfl⟩
  | some v =>
    rw [halo] at h
    have hp : lookupD fs "customfield_10020" (JVal.arr []) = v := by
      unfold lookupD; rw [halo]
    rw [hp]
    unfold sprintExpr
    cases v with
    | arr xs =>
      cases xs with
      | nil => exact ⟨"", rfl⟩
      | cons x rest =>
        cases x with
        | obj xfs =>
          obtain ⟨s, hs⟩ := lookupD_str xfs "name" "" h
          exact ⟨s, by simp only [JVal.truthy, JVal.isArr, List.isEmpty_cons,
            Bool.not_false, Bool.and_self, if_true, pyGet_obj, hs]⟩
        | null => simp at h
        | bool b => simp at h
        | num n => simp at h
        | str s => simp at h
        | arr ys => simp at h
    | null => exact ⟨"", rfl⟩
    | bool b =>
      exact ⟨"", by
        rw [show ((JVal.bool b).truthy && (JVal.bool b).isArr) = false from by
          simp [JVal.isArr]]
        rfl⟩
    | num n =>
      exact ⟨"", by
        rw [show ((JVal.num n).truthy && (JVal.num n).isArr) = false from by
          simp [JVal.isArr]]
        rfl⟩
    | str t =>
      exact ⟨"", by
        rw [show ((JVal.str t).truthy && (JVal.str t).isArr) = false from by
          simp [JVal.isArr]]
        rfl⟩
    | obj o =>
      exact ⟨"", by
        rw [show ((JVal.obj o).truthy && (JVal.obj o).isArr) = false from by
          simp [JVal.isArr]]
        rfl⟩

theorem assigneeExpr_ok (fs : List (String × JVal)) (h : assigneeShapeOK fs = true) :
    ∃ s, assigneeExpr (JVal.obj fs) (lookupD fs "assignee" JVal.null)
      = Except.ok (JVal.str s) := by
  unfold assigneeShapeOK at h
  cases halo : alookup fs "assignee" with
  | none =>
    have hp : lookupD fs "assignee" JVal.null = JVal.null := by
      unfold lookupD; rw [halo]
    rw [hp]
    exact ⟨"", rfl⟩
  | some v =>
    rw [halo] at h
    have hp : lookupD fs "assignee" JVal.null = v := by
      unfold lookupD; rw [halo]
    rw [hp]
    cases v with
    | null => exact ⟨"", rfl⟩
    | bool b => simp at h
    | num n => simp at h
    | str s => simp at h
    | arr xs => simp at h
    | obj afs =>
      unfold assigneeExpr
      cases ht : JVal.truthy (JVal.obj afs) with
      | false => exact ⟨"", by rw [if_bool_false]; rfl⟩
      | true =>
        obtain ⟨s, hs⟩ := lookupD_str afs "displayName" "" h
        refine ⟨s, ?_⟩
        rw [if_bool_true]
        have hLA : lookupD fs "assignee" (JVal.obj []) = JVal.obj afs := by
          unfold lookupD; rw [halo]
        rw [pyGet_obj, ok_bind, hLA, pyGet_obj, hs]

/-- C4 amended: `parse_issue` never raises and every field of its
normalized record is a string (defaulting to the empty string for fields
that are absent at any nesting level) provided the raw record is
well-shaped: nested values the code dereferences (`fields`, `status`,
`issuetype`, `parent` and its sub-objects, `assignee`, sprint list
elements) are objects when present (or null where the code guards), and
present scalar fields are strings.  With a null or wrong-shaped nested
field the function can raise, see the counterexample. -/
theorem parse_issue_total (raw : JVal) (h : wellTyped raw = true) :
    ∃ p, parse_issue raw = Except.ok p ∧ strFields p = true := by
  cases raw with
  | null => simp [wellTyped] at h
  | bool b => simp [wellTyped] at h
  | num n => simp [wellTyped] at h
  | str s => simp [wellTyped] at h
  | arr xs => simp [wellTyped] at h
  | obj rfs =>
    unfold wellTyped at h
    rw [Bool.and_eq_true] at h
    obtain ⟨hkey, hfld⟩ := h
    obtain ⟨fs, hfs, hOK⟩ : ∃ fs, lookupD rfs "fields" (JVal.obj []) = JVal.obj fs ∧
        fieldsOK fs = true := by
      cases halo : alookup rfs "fields" with
      | none => exact ⟨[], by unfold lookupD; rw [halo], by decide⟩
      | some v =>
        rw [halo] at hfld
        cases v with
        | obj fs => exact ⟨fs, by unfold lookupD; rw [halo], hfld⟩
        | null => simp at hfld
        | bool b => simp at hfld
        | num n => simp at hfld
        | str s => simp at hfld
        | arr xs => simp at hfld
    unfold fieldsOK at hOK
    simp only [Bool.and_eq_true] at hOK
    obtain ⟨⟨⟨⟨⟨⟨⟨⟨⟨⟨hsum, hdesc⟩, hstat⟩, hit⟩, hpar⟩, h14⟩, h11⟩,
      hsprint⟩, hassign⟩, hcreat⟩, hupd⟩ := hOK
    obtain ⟨ks, hks⟩ := lookupD_str rfs "key" "" hkey
    obtain ⟨ssum, hssum⟩ := lookupD_str fs "summary" "" hsum
    obtain ⟨sdesc, hsdesc⟩ := lookupD_str fs "description" "" hdesc
    obtain ⟨sfs, hsfs, hsn, hscat⟩ := lookupD_status fs hstat
    obtain ⟨sname, hsname⟩ := lookupD_str sfs "name" "" hsn
    obtain ⟨cfs, hcfs, hcn⟩ := lookupD_statusCategory sfs hscat
    obtain ⟨scat, hscatn⟩ := lookupD_str cfs "name" "" hcn
    obtain ⟨ifs, hifs, hin⟩ := lookupD_objName fs "issuetype" hit
    obtain ⟨itype, hitype⟩ := lookupD_str ifs "name" "" hin
    obtain ⟨⟨a, hEL0⟩, ⟨pk, hPK⟩, ⟨psum, hPS⟩⟩ := parentExprs_ok fs hpar
    obtain ⟨el, hEL⟩ := epicLinkExpr_ok fs a h14
    obtain ⟨en, hen⟩ := lookupD_str fs "customfield_10011" "" h11
    obtain ⟨spr, hspr⟩ := sprintExpr_ok fs hsprint
    obtain ⟨asg, hasg⟩ := assigneeExpr_ok fs hassign
    obtain ⟨scr, hscr⟩ := lookupD_str fs "created" "" hcreat
    obtain ⟨sup, hsup⟩ := lookupD_str fs "updated" "" hupd
    refine ⟨⟨.str ks, .str ssum, .str sdesc, .str sname, .str scat, .str itype,
      .str el, .str en, .str pk, .str psum, .str asg, .str scr, .str sup, .str spr⟩,
      ?_, ?_⟩
    · simp only [parse_issue, pyGet_obj, ok_bind, hfs, hEL0, hEL, hen, hspr, hks,
        hssum, hsdesc, hsfs, hsname, hcfs, hscatn, hifs, hitype, hPK, hPS, hasg,
        hscr, hsup]
      rfl
    · rfl

/-- C4 counterexample input: a record whose `fields.status` is present but
null. -/
def cRawC4 : JVal := .obj [("fields", .obj [("status", .null)])]

/-- C4 counterexample: on a record whose `fields.status` is present but
null, `parse_issue` raises AttributeError — Python's `dict.get` returns the
stored `None` rather than the `{}` default, and `.get` on `None` fails —
so normalization is not total and status does not degrade to the empty
string. -/
theorem parse_issue_raises_on_null_status :
    parse_issue cRawC4 = Except.error PyErr.attributeError := rfl

/-- C4 witness input: a typical well-shaped record. -/
def rawW4 : JVal := .obj [("key", .str "T1"), ("fields", .obj
  [("summary", .str "a task"),
   ("status", .obj [("name", .str "Done"),
     ("statusCategory", .obj [("name", .str "Done")])]),
   ("issuetype", .obj [("name", .str "Task")]),
   ("customfield_10020", .arr [.obj [("name", .str "Sprint 5")]])])]

theorem parse_issue_total_w :
    ∃ p, parse_issue rawW4 = Except.ok p ∧ strFields p = true :=
  parse_issue_total rawW4 (by decide)
